import Mathlib

/-!
Verification of the Ranking Diff & Notable-Event Engine of the btclayers-bot
repository (src/main.py), shallowly embedded in Lean 4.

The core consists of two pure functions:
  * `calculate_changes` (main.py lines 124-156): pairs each entity of the
    current snapshot with its record in the previous snapshot (a dict from
    chain name to tvl and rank, or None) and derives value delta, percentage
    delta, rank delta, previous rank and a new-entrant flag.
  * `get_notable_events` (main.py lines 158-196): derives an ordered list of
    at most four notable events (biggest gainer, biggest loser, new entrants,
    rank jumps) from the change records.

Numeric TVL values are modelled by `ℚ` (the Python code uses ordinary
arithmetic on floats obtained from the data source; the decision logic only
compares, subtracts, divides and multiplies, which we model exactly).
Events are modelled by an inductive type carrying exactly the data the code
interpolates into each event string; the surrounding literal text of the
f-strings carries no decision logic.
-/

set_option autoImplicit false

namespace BtcLayers

/-- One entry of the current snapshot as fetched from the data source:
a chain name with its TVL value (main.py lines 61-64). -/
structure Chain where
  name : String
  tvl  : ℚ
deriving DecidableEq

/-- One entry of the previous snapshot as loaded from the store:
TVL value and stored rank (main.py line 122). -/
structure PrevEntry where
  tvl  : ℚ
  rank : Nat
deriving DecidableEq

/-- The previous snapshot: the dict built on main.py line 122, modelled as an
association list from chain name to previous entry (keys are unique in the
dict; lookup takes the first match). -/
abbrev PrevMap := List (String × PrevEntry)

/-- Dict membership test and access `previous_data[name]` combined:
first entry whose key equals `name`, if any. -/
def lookup (pm : PrevMap) (name : String) : Option PrevEntry :=
  (pm.find? (fun e => e.1 == name)).map Prod.snd

/-- One output record of `calculate_changes` (main.py lines 145-154). -/
structure ChangeRecord where
  name        : String
  tvl         : ℚ
  rank        : Nat
  change      : ℚ
  change_pct  : ℚ
  rank_change : Int
  prev_rank   : Option Nat
  is_new      : Bool
deriving DecidableEq

/-- The per-entity body of the loop of `calculate_changes`
(main.py lines 128-154).  The guard `previous_data and name in previous_data`
(line 137) is modelled by the nested match: a `none` previous dict or an
empty previous dict (falsy in Python) or a failed name lookup all fall to the
zero-delta branch.  `is_new` (line 153) is
`previous_data is not None and name not in previous_data`, which in the
zero-delta branch is exactly `previous.isSome`. -/
def mkRecord (previous : Option PrevMap) (rank : Nat) (c : Chain) : ChangeRecord :=
  match previous with
  | none => ⟨c.name, c.tvl, rank, 0, 0, 0, none, false⟩
  | some pm =>
    match (if pm = [] then none else lookup pm c.name) with
    | some p =>
        ⟨c.name, c.tvl, rank, c.tvl - p.tvl,
         if 0 < p.tvl then (c.tvl - p.tvl) / p.tvl * 100 else 0,
         (p.rank : Int) - (rank : Int), some p.rank, false⟩
    | none => ⟨c.name, c.tvl, rank, 0, 0, 0, none, true⟩

/-- The loop `for rank, chain in enumerate(current_data, 1)`
(main.py line 128), carrying the 1-based rank counter. -/
def calc_aux (previous : Option PrevMap) : Nat → List Chain → List ChangeRecord
  | _, [] => []
  | rank, c :: rest => mkRecord previous rank c :: calc_aux previous (rank + 1) rest

/-- Embedding of `calculate_changes(current_data, previous_data)`
(main.py lines 124-156). -/
def calculate_changes (current : List Chain) (previous : Option PrevMap) :
    List ChangeRecord :=
  calc_aux previous 1 current

/-- The rank annotation attached to the biggest-gainer event
(main.py lines 172-176). -/
inductive RankNote where
  | jumped (spots : Int)
  | upOne
  | blank
deriving DecidableEq

/-- Derivation of the rank annotation from the gainer's rank change
(main.py lines 173-176). -/
def rank_note (rc : Int) : RankNote :=
  if 2 ≤ rc then .jumped rc else if rc = 1 then .upOne else .blank

/-- One notable event, carrying exactly the data interpolated into the event
string (main.py lines 177, 183, 188, 194). -/
inductive Event where
  | gainer (name : String) (pct : ℚ) (note : RankNote)
  | loser (name : String) (pct : ℚ)
  | newTop10 (name : String)
  | jump (name : String) (spots : Int)
deriving DecidableEq

/-- Python's `max(l, key=k)` on a possibly empty list: `none` on the empty
list, otherwise the first element with maximal key (Python's `max` replaces
the running best only on a strictly greater key). -/
def maxByKey {α : Type} (key : α → ℚ) : List α → Option α
  | [] => none
  | x :: xs => some (xs.foldl (fun best y => if key best < key y then y else best) x)

/-- Python's `min(l, key=k)` on a possibly empty list: `none` on the empty
list, otherwise the first element with minimal key. -/
def minByKey {α : Type} (key : α → ℚ) : List α → Option α
  | [] => none
  | x :: xs => some (xs.foldl (fun best y => if key y < key best then y else best) x)

/-- The filter `with_changes` of `get_notable_events` (main.py line 163):
records with a nonzero value delta or the new-entrant flag. -/
def with_changes (data : List ChangeRecord) : List ChangeRecord :=
  data.filter (fun d => decide (d.change ≠ 0) || d.is_new)

/-- The list `gainers` (main.py line 169): records of `with_changes` with
positive percentage delta. -/
def gainers (data : List ChangeRecord) : List ChangeRecord :=
  (with_changes data).filter (fun d => decide (0 < d.change_pct))

/-- Step 1 of the selector (main.py lines 168-177): the biggest-gainer event,
if any record has a positive percentage delta. -/
def gainer_events (data : List ChangeRecord) : List Event :=
  match maxByKey (fun d => d.change_pct) (gainers data) with
  | some g => [Event.gainer g.name g.change_pct (rank_note g.rank_change)]
  | none => []

/-- The list `losers` (main.py line 180): records of `with_changes` with
negative percentage delta. -/
def losers (data : List ChangeRecord) : List ChangeRecord :=
  (with_changes data).filter (fun d => decide (d.change_pct < 0))

/-- Step 2 of the selector (main.py lines 179-183): the biggest-loser event,
if any record has a negative percentage delta. -/
def loser_events (data : List ChangeRecord) : List Event :=
  match minByKey (fun d => d.change_pct) (losers data) with
  | some l => [Event.loser l.name l.change_pct]
  | none => []

/-- Step 3 of the selector (main.py lines 185-188): one new-entrant event per
record with the new-entrant flag, in current-rank order.  Note the scan is
over `data`, not `with_changes`. -/
def new_events (data : List ChangeRecord) : List Event :=
  (data.filter (fun d => d.is_new)).map (fun d => Event.newTop10 d.name)

/-- The list `big_movers` (main.py line 191): records of `data` with rank
change at least 2. -/
def big_movers (data : List ChangeRecord) : List ChangeRecord :=
  data.filter (fun d => decide (2 ≤ d.rank_change))

/-- The skip key of step 4 (main.py line 193):
`gainers[0]['name'] if gainers else None` — the name of the FIRST record with
positive percentage delta, not the name of the biggest gainer. -/
def skip_name (data : List ChangeRecord) : Option String :=
  (gainers data).head?.map (fun d => d.name)

/-- Step 4 of the selector (main.py lines 190-194): one jump event per big
mover whose name differs from the skip key, in current-rank order.
A string compared to Python's `None` is always unequal, which the `Option`
comparison models. -/
def jump_events (data : List ChangeRecord) : List Event :=
  ((big_movers data).filter (fun d => decide (some d.name ≠ skip_name data))).map
    (fun d => Event.jump d.name d.rank_change)

/-- The full concatenation of the events appended by steps 1-4 of
`get_notable_events`, before the final truncation (main.py lines 160-194
build exactly this list in this order). -/
def events_full (data : List ChangeRecord) : List Event :=
  gainer_events data ++ loser_events data ++ new_events data ++ jump_events data

/-- Embedding of `get_notable_events(data)` (main.py lines 158-196): the
early return on an empty `with_changes` (lines 165-166), then the events of
steps 1-4 truncated to the first 4 (line 196). -/
def get_notable_events (data : List ChangeRecord) : List Event :=
  if with_changes data = [] then [] else (events_full data).take 4

/-- Recogniser for biggest-gainer events. -/
def isGainerEvent : Event → Bool
  | .gainer _ _ _ => true
  | _ => false

/-! ## General lemmas about the Python `max`/`min` embedding -/

/-- A fold whose step always returns one of its two arguments lands on the
seed or on a list element. -/
theorem foldl_choice_mem {α : Type} (f : α → α → α) (hf : ∀ a b, f a b = a ∨ f a b = b) :
    ∀ (l : List α) (a : α), l.foldl f a = a ∨ l.foldl f a ∈ l := by
  intro l
  induction l with
  | nil => intro a; exact Or.inl rfl
  | cons b t ih =>
    intro a
    rcases ih (f a b) with h | h
    · rcases hf a b with h' | h'
      · exact Or.inl (by rw [List.foldl_cons, h, h'])
      · exact Or.inr (by rw [List.foldl_cons, h, h']; exact List.mem_cons_self b t)
    · exact Or.inr (List.mem_cons_of_mem b (by rw [List.foldl_cons]; exact h))

/-- Choosing between the two branches of an `if` yields one of the branches. -/
theorem ite_choice {α : Type} (c : Prop) [Decidable c] (a b : α) :
    (if c then b else a) = a ∨ (if c then b else a) = b := by
  split
  · exact Or.inr rfl
  · exact Or.inl rfl

/-- The result of `maxByKey` is an element of the list. -/
theorem maxByKey_mem {α : Type} (key : α → ℚ) {l : List α} {x : α}
    (h : maxByKey key l = some x) : x ∈ l := by
  cases l with
  | nil => cases h
  | cons a t =>
    simp only [maxByKey, Option.some.injEq] at h
    subst h
    rcases foldl_choice_mem _ (fun a b => ite_choice (key a < key b) a b) t a with h | h
    · rw [h]; exact List.mem_cons_self a t
    · exact List.mem_cons_of_mem a h

/-- The result of `minByKey` is an element of the list. -/
theorem minByKey_mem {α : Type} (key : α → ℚ) {l : List α} {x : α}
    (h : minByKey key l = some x) : x ∈ l := by
  cases l with
  | nil => cases h
  | cons a t =>
    simp only [minByKey, Option.some.injEq] at h
    subst h
    rcases foldl_choice_mem _ (fun a b => ite_choice (key b < key a) a b) t a with h | h
    · rw [h]; exact List.mem_cons_self a t
    · exact List.mem_cons_of_mem a h

/-- The fold of `maxByKey` keeps a seed that dominates the whole list. -/
theorem maxByKey_foldl_keep {α : Type} (key : α → ℚ) (a : α) (l : List α)
    (h : ∀ y ∈ l, key y ≤ key a) :
    l.foldl (fun best y => if key best < key y then y else best) a = a := by
  induction l generalizing a with
  | nil => rfl
  | cons b t ih =>
    have hb : ¬ key a < key b := not_lt.mpr (h b (List.mem_cons_self b t))
    rw [List.foldl_cons]
    simp only [if_neg hb]
    exact ih a (fun y hy => h y (List.mem_cons_of_mem b hy))

/-- The fold of `maxByKey` reaches a strictly dominating element `x` through a
prefix of elements with strictly smaller keys. -/
theorem maxByKey_foldl_reach {α : Type} (key : α → ℚ) (a x : α) (l₁ l₂ : List α)
    (ha : key a < key x)
    (h1 : ∀ y ∈ l₁, key y < key x) (h2 : ∀ y ∈ l₂, key y ≤ key x) :
    (l₁ ++ x :: l₂).foldl (fun best y => if key best < key y then y else best) a = x := by
  induction l₁ generalizing a with
  | nil =>
    rw [List.nil_append, List.foldl_cons]
    simp only [if_pos ha]
    exact maxByKey_foldl_keep key x l₂ h2
  | cons b t ih =>
    rw [List.cons_append, List.foldl_cons]
    by_cases hc : key a < key b
    · simp only [if_pos hc]
      exact ih b (h1 b (List.mem_cons_self b t)) (fun y hy => h1 y (List.mem_cons_of_mem b hy))
    · simp only [if_neg hc]
      exact ih a ha (fun y hy => h1 y (List.mem_cons_of_mem b hy))

/-- Python's `max` over a stable ordered scan keeps the first maximal element:
if `x` strictly dominates everything before it and weakly dominates everything
after it, `maxByKey` returns `x`. -/
theorem maxByKey_first_max {α : Type} (key : α → ℚ) (l₁ : List α) (x : α) (l₂ : List α)
    (h1 : ∀ y ∈ l₁, key y < key x) (h2 : ∀ y ∈ l₂, key y ≤ key x) :
    maxByKey key (l₁ ++ x :: l₂) = some x := by
  cases l₁ with
  | nil =>
    rw [List.nil_append]
    simp only [maxByKey]
    rw [maxByKey_foldl_keep key x l₂ h2]
  | cons b t =>
    rw [List.cons_append]
    simp only [maxByKey]
    rw [maxByKey_foldl_reach key b x t l₂ (h1 b (List.mem_cons_self b t))
      (fun y hy => h1 y (List.mem_cons_of_mem b hy)) h2]

/-! ## Structural lemmas about `calculate_changes` -/

/-- The name of a change record is the name of its chain, in every branch. -/
theorem mkRecord_name (previous : Option PrevMap) (rank : Nat) (c : Chain) :
    (mkRecord previous rank c).name = c.name := by
  cases previous with
  | none => rfl
  | some pm =>
    simp only [mkRecord]
    split <;> rfl

/-- A record with a nonzero percentage delta has a nonzero value delta:
the percentage is `change / prev.tvl * 100`, which vanishes with `change`. -/
theorem mkRecord_pct_change (previous : Option PrevMap) (rank : Nat) (c : Chain) :
    (mkRecord previous rank c).change_pct ≠ 0 → (mkRecord previous rank c).change ≠ 0 := by
  cases previous with
  | none => intro h; exact absurd rfl h
  | some pm =>
    simp only [mkRecord]
    split
    · intro h hc
      apply h
      dsimp only at hc ⊢
      split
      · rw [hc, zero_div, zero_mul]
      · rfl
    · intro h; exact absurd rfl h

/-- Every record produced by the enumeration loop is `mkRecord` of some rank
and chain. -/
theorem calc_aux_shape (previous : Option PrevMap) :
    ∀ (k : Nat) (data : List Chain) (r : ChangeRecord), r ∈ calc_aux previous k data →
      ∃ rank c, c ∈ data ∧ r = mkRecord previous rank c := by
  intro k data
  induction data generalizing k with
  | nil => intro r h; cases h
  | cons c rest ih =>
    intro r h
    simp only [calc_aux] at h
    rcases List.mem_cons.mp h with h | h
    · exact ⟨k, c, List.mem_cons_self c rest, h⟩
    · obtain ⟨rank, c', hc', hr⟩ := ih (k + 1) r h
      exact ⟨rank, c', List.mem_cons_of_mem c hc', hr⟩

/-- The loop emits exactly one record per current entity. -/
theorem calc_aux_length (previous : Option PrevMap) :
    ∀ (k : Nat) (data : List Chain), (calc_aux previous k data).length = data.length := by
  intro k data
  induction data generalizing k with
  | nil => rfl
  | cons c rest ih => simp only [calc_aux, List.length_cons, ih]

/-- The loop preserves entity names, in order. -/
theorem calc_aux_map_name (previous : Option PrevMap) :
    ∀ (k : Nat) (data : List Chain),
      (calc_aux previous k data).map ChangeRecord.name = data.map Chain.name := by
  intro k data
  induction data generalizing k with
  | nil => rfl
  | cons c rest ih =>
    simp only [calc_aux, List.map_cons, ih, mkRecord_name]

/-- Invariant of change records as produced by the engine: a nonzero
percentage delta forces a nonzero value delta. -/
theorem calculate_changes_pct_change (current : List Chain) (previous : Option PrevMap) :
    ∀ r ∈ calculate_changes current previous, r.change_pct ≠ 0 → r.change ≠ 0 := by
  intro r hr
  obtain ⟨rank, c, _, hr'⟩ := calc_aux_shape previous 1 current r hr
  rw [hr']
  exact mkRecord_pct_change previous rank c

/-- Records with zero value delta and no new-entrant flag produce no events:
the `with_changes` filter is empty and the selector returns early. -/
theorem get_notable_events_eq_nil {data : List ChangeRecord}
    (h : ∀ d ∈ data, d.change = 0 ∧ d.is_new = false) :
    get_notable_events data = [] := by
  have hwc : with_changes data = [] := by
    rw [with_changes, List.filter_eq_nil_iff]
    intro d hd
    obtain ⟨h1, h2⟩ := h d hd
    simp [h1, h2]
  rw [get_notable_events, if_pos hwc]

/-! ## Claims about `calculate_changes` -/

/-- C4: for every current snapshot, when the previous snapshot is absent,
`calculate_changes` returns one record per current entity with value delta 0,
percentage delta 0, rank delta 0, previous rank absent and new-entrant false,
and the event list selected from those records is empty. -/
theorem C4_absent_previous (current : List Chain) :
    get_notable_events (calculate_changes current none) = [] ∧
    (calculate_changes current none).length = current.length ∧
    ∀ r ∈ calculate_changes current none,
      r.change = 0 ∧ r.change_pct = 0 ∧ r.rank_change = 0 ∧
      r.prev_rank = none ∧ r.is_new = false := by
  have hz : ∀ r ∈ calculate_changes current none,
      r.change = 0 ∧ r.change_pct = 0 ∧ r.rank_change = 0 ∧
      r.prev_rank = none ∧ r.is_new = false := by
    intro r hr
    obtain ⟨rank, c, _, hr'⟩ := calc_aux_shape none 1 current r hr
    rw [hr']
    exact ⟨rfl, rfl, rfl, rfl, rfl⟩
  refine ⟨get_notable_events_eq_nil ?_, calc_aux_length none 1 current, hz⟩
  intro d hd
  exact ⟨(hz d hd).1, (hz d hd).2.2.2.2⟩

/-- Witness for C4 at a concrete one-entity snapshot. -/
theorem C4_absent_previous_witness :
    get_notable_events (calculate_changes [⟨"W", 3⟩] none) = [] ∧
    (calculate_changes [⟨"W", 3⟩] none).length = 1 := by
  exact ⟨(C4_absent_previous [⟨"W", 3⟩]).1, (C4_absent_previous [⟨"W", 3⟩]).2.1⟩

/-- C8: `calculate_changes` is a pure function of its two inputs: two calls on
equal inputs return equal (structurally, hence deeply, equal) record lists. -/
theorem C8_deterministic (c₁ c₂ : List Chain) (p₁ p₂ : Option PrevMap)
    (hc : c₁ = c₂) (hp : p₁ = p₂) :
    calculate_changes c₁ p₁ = calculate_changes c₂ p₂ := by
  rw [hc, hp]

/-- Witness for C8 at concrete inputs. -/
theorem C8_deterministic_witness :
    calculate_changes [⟨"W", 1⟩] (some [("W", ⟨1, 1⟩)]) =
      calculate_changes [⟨"W", 1⟩] (some [("W", ⟨1, 1⟩)]) :=
  C8_deterministic [⟨"W", 1⟩] [⟨"W", 1⟩] (some [("W", ⟨1, 1⟩)]) (some [("W", ⟨1, 1⟩)]) rfl rfl

/-- C9: when the previous snapshot is present but empty, every record is
marked new-entrant while all deltas are 0 and the previous rank is absent:
the empty prior counts as existing for the new-entrant flag but is treated
like an absent prior for the delta computation (the empty dict is falsy in
the guard on main.py line 137, while line 153 only checks `is not None`). -/
theorem C9_empty_previous (current : List Chain) (r : ChangeRecord)
    (hr : r ∈ calculate_changes current (some [])) :
    r.is_new = true ∧ r.change = 0 ∧ r.change_pct = 0 ∧ r.rank_change = 0 ∧
      r.prev_rank = none := by
  obtain ⟨rank, c, _, hr'⟩ := calc_aux_shape (some []) 1 current r hr
  rw [hr']
  exact ⟨rfl, rfl, rfl, rfl, rfl⟩

/-- Witness for C9 at a concrete one-entity snapshot. -/
theorem C9_empty_previous_witness :
    (⟨"Y", 7, 1, 0, 0, 0, none, true⟩ : ChangeRecord) ∈
      calculate_changes [⟨"Y", 7⟩] (some []) ∧
    (⟨"Y", 7, 1, 0, 0, 0, none, true⟩ : ChangeRecord).is_new = true :=
  ⟨by decide, (C9_empty_previous [⟨"Y", 7⟩] ⟨"Y", 7, 1, 0, 0, 0, none, true⟩ (by decide)).1⟩

/-- C3 is refuted by the code: `calculate_changes` performs no input
validation at all.  On a current snapshot with a duplicate entity name and a
negative value it silently produces one change record per entry; there is no
`MalformedSnapshot` error anywhere in the repository. -/
theorem C3_counterexample :
    calculate_changes [⟨"X", -3⟩, ⟨"X", 5⟩] (some [("X", ⟨2, 1⟩)]) =
      [⟨"X", -3, 1, -5, -250, 0, some 1, false⟩,
       ⟨"X", 5, 2, 3, 150, -1, some 1, false⟩] := by
  with_unfolding_all decide

/-- C3 (amended): `calculate_changes` never rejects its input: for every
current snapshot — including snapshots with duplicate entity names or
negative values — it returns exactly one change record per current entry,
with the entity names preserved in order. -/
theorem C3_no_validation (current : List Chain) (previous : Option PrevMap) :
    (calculate_changes current previous).map ChangeRecord.name =
      current.map Chain.name :=
  calc_aux_map_name previous 1 current

/-- C7: for every entity present in both snapshots whose previous value is 0,
the percentage delta of its record is 0: the division by the previous value
is guarded by `prev.tvl > 0` (main.py line 140) and skipped, never raised as
an error. -/
theorem C7_zero_previous_value (current : List Chain) (pm : PrevMap) (r : ChangeRecord)
    (hr : r ∈ calculate_changes current (some pm)) (p : PrevEntry)
    (hp : lookup pm r.name = some p) (h0 : p.tvl = 0) :
    r.change_pct = 0 := by
  obtain ⟨rank, c, _, hr'⟩ := calc_aux_shape (some pm) 1 current r hr
  rw [hr', mkRecord_name] at hp
  rw [hr']
  simp only [mkRecord]
  split
  · next q heq =>
    dsimp only
    by_cases hpm : pm = []
    · rw [if_pos hpm] at heq
      cases heq
    · rw [if_neg hpm] at heq
      rw [heq] at hp
      cases hp
      rw [h0]
      rw [if_neg (lt_irrefl 0)]
  · rfl

/-- Witness for C7: an entity whose previous value is 0 and whose current
value is positive still gets percentage delta 0. -/
theorem C7_zero_previous_value_witness :
    (⟨"Z", 9, 1, 9, 0, 1, some 2, false⟩ : ChangeRecord) ∈
      calculate_changes [⟨"Z", 9⟩] (some [("Z", ⟨0, 2⟩)]) ∧
    lookup [("Z", ⟨0, 2⟩)] "Z" = some ⟨0, 2⟩ ∧
    (⟨"Z", 9, 1, 9, 0, 1, some 2, false⟩ : ChangeRecord).change_pct = 0 :=
  ⟨by with_unfolding_all decide, by decide,
    C7_zero_previous_value [⟨"Z", 9⟩] [("Z", ⟨0, 2⟩)] ⟨"Z", 9, 1, 9, 0, 1, some 2, false⟩
      (by with_unfolding_all decide) ⟨0, 2⟩ (by decide) rfl⟩

/-! ## Structural lemmas about `get_notable_events` -/

/-- The `with_changes` filter keeps only records of the input. -/
theorem with_changes_subset (data : List ChangeRecord) : with_changes data ⊆ data :=
  fun _ hx => (List.mem_filter.mp hx).1

/-- Under the engine invariant (nonzero percentage delta forces nonzero value
delta), filtering `with_changes` for positive percentage deltas is the same
as filtering the whole input: every positive-percentage record survives the
`with_changes` filter. -/
theorem gainers_eq_of_wf {data : List ChangeRecord}
    (hwf : ∀ d ∈ data, d.change_pct ≠ 0 → d.change ≠ 0) :
    gainers data = data.filter (fun d => decide (0 < d.change_pct)) := by
  rw [gainers, with_changes, List.filter_filter]
  refine List.filter_congr ?_
  intro d hd
  by_cases h : 0 < d.change_pct
  · have hc : d.change ≠ 0 := hwf d hd (ne_of_gt h)
    simp [h, hc]
  · simp [h]

/-- Every biggest-loser event is the `loser` constructor. -/
theorem loser_events_shape (data : List ChangeRecord) :
    ∀ e ∈ loser_events data,
      ∃ l, minByKey (fun d => d.change_pct) (losers data) = some l ∧
        e = Event.loser l.name l.change_pct := by
  intro e he
  simp only [loser_events] at he
  split at he
  · next l heq => exact ⟨l, heq, List.mem_singleton.mp he⟩
  · cases he

/-- Every new-entrant event is the `newTop10` constructor. -/
theorem new_events_shape (data : List ChangeRecord) :
    ∀ e ∈ new_events data, ∃ n, e = Event.newTop10 n := by
  intro e he
  obtain ⟨d, _, hd⟩ := List.mem_map.mp he
  exact ⟨d.name, hd.symm⟩

/-- Every rank-jump event is the `jump` constructor. -/
theorem jump_events_shape (data : List ChangeRecord) :
    ∀ e ∈ jump_events data, ∃ n s, e = Event.jump n s := by
  intro e he
  obtain ⟨d, _, hd⟩ := List.mem_map.mp he
  exact ⟨d.name, d.rank_change, hd.symm⟩

/-- No event of steps 2-4 is a biggest-gainer event. -/
theorem rest_no_gainer (data : List ChangeRecord) :
    ∀ e ∈ loser_events data ++ new_events data ++ jump_events data,
      isGainerEvent e = false := by
  intro e he
  rcases List.mem_append.mp he with h | h
  · rcases List.mem_append.mp h with h | h
    · obtain ⟨l, _, rfl⟩ := loser_events_shape data e h
      rfl
    · obtain ⟨n, rfl⟩ := new_events_shape data e h
      rfl
  · obtain ⟨n, s, rfl⟩ := jump_events_shape data e h
    rfl

/-- A biggest-gainer event in the full event list comes from step 1: it names
the record selected by `max` over the positive-percentage records. -/
theorem eq_gainer_of_mem_events_full {data : List ChangeRecord}
    {gn : String} {gp : ℚ} {note : RankNote}
    (h : Event.gainer gn gp note ∈ events_full data) :
    ∃ g, maxByKey (fun d => d.change_pct) (gainers data) = some g ∧
      gn = g.name ∧ gp = g.change_pct := by
  rw [events_full] at h
  rcases List.mem_append.mp h with h | h
  · rcases List.mem_append.mp h with h | h
    · rcases List.mem_append.mp h with h | h
      · simp only [gainer_events] at h
        split at h
        · next g heq =>
          have hg := List.mem_singleton.mp h
          injection hg with h1 h2 h3
          exact ⟨g, heq, h1, h2⟩
        · cases h
      · obtain ⟨l, _, hl⟩ := loser_events_shape data _ h
        cases hl
    · obtain ⟨n, hn⟩ := new_events_shape data _ h
      cases hn
  · obtain ⟨n, s, hs⟩ := jump_events_shape data _ h
    cases hs

/-- A biggest-loser event in the full event list comes from step 2: it names
the record selected by `min` over the negative-percentage records. -/
theorem eq_loser_of_mem_events_full {data : List ChangeRecord}
    {ln : String} {lp : ℚ}
    (h : Event.loser ln lp ∈ events_full data) :
    ∃ l, minByKey (fun d => d.change_pct) (losers data) = some l ∧
      ln = l.name ∧ lp = l.change_pct := by
  rw [events_full] at h
  rcases List.mem_append.mp h with h | h
  · rcases List.mem_append.mp h with h | h
    · rcases List.mem_append.mp h with h | h
      · simp only [gainer_events] at h
        split at h
        · have hg := List.mem_singleton.mp h
          cases hg
        · cases h
      · obtain ⟨l, heq, hl⟩ := loser_events_shape data _ h
        injection hl with h1 h2
        exact ⟨l, heq, h1, h2⟩
    · obtain ⟨n, hn⟩ := new_events_shape data _ h
      cases hn
  · obtain ⟨n, s, hs⟩ := jump_events_shape data _ h
    cases hs

/-- The selector output is a sublist of the full step 1-4 concatenation. -/
theorem get_notable_events_subset (data : List ChangeRecord) :
    get_notable_events data ⊆ events_full data := by
  rw [get_notable_events]
  split
  · intro x hx; cases hx
  · exact List.take_subset 4 _

/-! ## Claims about `get_notable_events` -/

/-- C5: under the engine invariant relating percentage and value deltas, if no
record has positive percentage delta the selector emits no gainer event, and
if the positive-percentage records (in current-rank order) decompose around a
first maximal element `g`, the selector emits exactly one biggest-gainer
event, it names `g`, and it is the first event of the output. -/
theorem C5_biggest_gainer (data : List ChangeRecord)
    (hwf : ∀ d ∈ data, d.change_pct ≠ 0 → d.change ≠ 0) :
    (data.filter (fun d => decide (0 < d.change_pct)) = [] →
      (get_notable_events data).filter isGainerEvent = []) ∧
    (∀ (l₁ : List ChangeRecord) (g : ChangeRecord) (l₂ : List ChangeRecord),
      data.filter (fun d => decide (0 < d.change_pct)) = l₁ ++ g :: l₂ →
      (∀ y ∈ l₁, y.change_pct < g.change_pct) →
      (∀ y ∈ l₂, y.change_pct ≤ g.change_pct) →
      (get_notable_events data).head? =
        some (Event.gainer g.name g.change_pct (rank_note g.rank_change)) ∧
      (get_notable_events data).filter isGainerEvent =
        [Event.gainer g.name g.change_pct (rank_note g.rank_change)]) := by
  constructor
  · intro hpos
    have hg : gainers data = [] := (gainers_eq_of_wf hwf).trans hpos
    have hge : gainer_events data = [] := by
      rw [gainer_events, hg]
      rfl
    rw [List.filter_eq_nil_iff]
    intro e he
    have he' : e ∈ events_full data := get_notable_events_subset data he
    rw [events_full, hge, List.nil_append] at he'
    simp [rest_no_gainer data e he']
  · intro l₁ g l₂ hdec h1 h2
    have hgd : gainers data = l₁ ++ g :: l₂ := (gainers_eq_of_wf hwf).trans hdec
    have hmax : maxByKey (fun d => d.change_pct) (gainers data) = some g := by
      rw [hgd]
      exact maxByKey_first_max _ l₁ g l₂ h1 h2
    have hge : gainer_events data =
        [Event.gainer g.name g.change_pct (rank_note g.rank_change)] := by
      rw [gainer_events, hmax]
    have hgmem : g ∈ gainers data := maxByKey_mem _ hmax
    have hwc : with_changes data ≠ [] :=
      List.ne_nil_of_mem (List.mem_of_mem_filter hgmem)
    rw [get_notable_events, if_neg hwc, events_full, hge]
    rw [List.append_assoc, List.append_assoc, List.singleton_append, List.take_succ_cons]
    refine ⟨rfl, ?_⟩
    have hnil : ((loser_events data ++ (new_events data ++ jump_events data)).take 3).filter
        isGainerEvent = [] := by
      rw [List.filter_eq_nil_iff]
      intro e he
      have he' : e ∈ loser_events data ++ new_events data ++ jump_events data := by
        rw [List.append_assoc]
        exact List.take_subset 3 _ he
      simp [rest_no_gainer data e he']
    simp only [List.filter_cons, hnil]
    rfl

/-- Witness for C5 at a concrete two-record input: the second record has the
strictly larger percentage delta and is selected as the biggest gainer. -/
theorem C5_biggest_gainer_witness :
    (∀ d ∈ ([⟨"P", 105, 1, 5, 5, 0, some 1, false⟩,
             ⟨"Q", 50, 2, 10, 25, 3, some 5, false⟩] : List ChangeRecord),
      d.change_pct ≠ 0 → d.change ≠ 0) ∧
    (get_notable_events [⟨"P", 105, 1, 5, 5, 0, some 1, false⟩,
        ⟨"Q", 50, 2, 10, 25, 3, some 5, false⟩]).head? =
      some (Event.gainer "Q" 25 (RankNote.jumped 3)) :=
  ⟨by decide,
    by
      have h := (C5_biggest_gainer
        [⟨"P", 105, 1, 5, 5, 0, some 1, false⟩, ⟨"Q", 50, 2, 10, 25, 3, some 5, false⟩]
        (by decide)).2 [⟨"P", 105, 1, 5, 5, 0, some 1, false⟩]
        ⟨"Q", 50, 2, 10, 25, 3, some 5, false⟩ [] (by decide) (by decide) (by decide)
      exact h.1⟩

/-- C6 counterexample: the output is NOT always the truncated concatenation
of steps 1-4.  For a record with value delta 0, new-entrant false but rank
delta 3 (an entity whose value is unchanged while its rank improved), the
early return on the empty `with_changes` filter (main.py lines 165-166)
discards the jump event that step 4 produces. -/
theorem C6_counterexample :
    get_notable_events (calculate_changes [⟨"J", 10⟩] (some [("J", ⟨10, 4⟩)])) = [] ∧
    events_full (calculate_changes [⟨"J", 10⟩] (some [("J", ⟨10, 4⟩)])) =
      [Event.jump "J" 3] ∧
    get_notable_events (calculate_changes [⟨"J", 10⟩] (some [("J", ⟨10, 4⟩)])) ≠
      (events_full (calculate_changes [⟨"J", 10⟩] (some [("J", ⟨10, 4⟩)]))).take 4 := by
  refine ⟨?_, ?_, ?_⟩ <;> with_unfolding_all decide

/-- C6 (amended): the selector output has length at most 4 and is a prefix of
the concatenation of the events of steps 1 through 4 in that fixed order
(so truncation never reorders); it equals that concatenation truncated to its
first 4 entries whenever some record has a nonzero value delta or the
new-entrant flag — otherwise the selector returns early with no events. -/
theorem C6_truncated_concatenation (data : List ChangeRecord) :
    (get_notable_events data).length ≤ 4 ∧
    List.IsPrefix (get_notable_events data) (events_full data) ∧
    (with_changes data ≠ [] → get_notable_events data = (events_full data).take 4) := by
  refine ⟨?_, ?_, fun h => by rw [get_notable_events, if_neg h]⟩
  · rw [get_notable_events]
    split
    · simp
    · rw [List.length_take]
      exact min_le_left 4 _
  · rw [get_notable_events]
    split
    · exact List.nil_prefix
    · exact List.take_prefix 4 _

/-- Witness for C6 at a concrete input with a nonzero value delta. -/
theorem C6_truncated_concatenation_witness :
    with_changes [(⟨"G", 105, 1, 5, 5, 0, some 1, false⟩ : ChangeRecord)] ≠ [] ∧
    get_notable_events [(⟨"G", 105, 1, 5, 5, 0, some 1, false⟩ : ChangeRecord)] =
      (events_full [(⟨"G", 105, 1, 5, 5, 0, some 1, false⟩ : ChangeRecord)]).take 4 :=
  ⟨by decide,
    (C6_truncated_concatenation [⟨"G", 105, 1, 5, 5, 0, some 1, false⟩]).2.2 (by decide)⟩

/-- C10: when the selector emits both a biggest-gainer and a biggest-loser
event on an input whose records carry pairwise distinct entity names (the
snapshot invariant), the two events name distinct entities: the gainer comes
from the positive-percentage records and the loser from the
negative-percentage records, which are disjoint. -/
theorem C10_gainer_loser_distinct (data : List ChangeRecord)
    (hnd : (data.map ChangeRecord.name).Nodup)
    (gn : String) (gp : ℚ) (note : RankNote) (ln : String) (lp : ℚ)
    (hg : Event.gainer gn gp note ∈ get_notable_events data)
    (hl : Event.loser ln lp ∈ get_notable_events data) :
    gn ≠ ln := by
  obtain ⟨g, hgmax, hgn, _⟩ :=
    eq_gainer_of_mem_events_full (get_notable_events_subset data hg)
  obtain ⟨l, hlmin, hln, _⟩ :=
    eq_loser_of_mem_events_full (get_notable_events_subset data hl)
  have hgmem : g ∈ gainers data := maxByKey_mem _ hgmax
  have hlmem : l ∈ losers data := minByKey_mem _ hlmin
  have hgpos : 0 < g.change_pct := by
    have := (List.mem_filter.mp hgmem).2
    exact of_decide_eq_true this
  have hlneg : l.change_pct < 0 := by
    have := (List.mem_filter.mp hlmem).2
    exact of_decide_eq_true this
  have hgd : g ∈ data := with_changes_subset data (List.mem_filter.mp hgmem).1
  have hld : l ∈ data := with_changes_subset data (List.mem_filter.mp hlmem).1
  intro heq
  rw [hgn, hln] at heq
  have hgl : g = l := List.inj_on_of_nodup_map hnd hgd hld heq
  rw [hgl] at hgpos
  exact absurd hlneg (not_lt.mpr (le_of_lt hgpos))

/-- Witness for C10 at a concrete input emitting both a gainer and a loser. -/
theorem C10_gainer_loser_distinct_witness :
    Event.gainer "U" 10 RankNote.blank ∈
      get_notable_events [⟨"U", 110, 1, 10, 10, 0, some 1, false⟩,
        ⟨"V", 45, 2, -5, -10, 0, some 2, false⟩] ∧
    Event.loser "V" (-10) ∈
      get_notable_events [⟨"U", 110, 1, 10, 10, 0, some 1, false⟩,
        ⟨"V", 45, 2, -5, -10, 0, some 2, false⟩] ∧
    ("U" : String) ≠ "V" :=
  ⟨by decide, by decide,
    C10_gainer_loser_distinct
      [⟨"U", 110, 1, 10, 10, 0, some 1, false⟩, ⟨"V", 45, 2, -5, -10, 0, some 2, false⟩]
      (by decide) "U" 10 RankNote.blank "V" (-10) (by decide) (by decide)⟩

/-- C1 is refuted by the code: the deduplication guard of step 4 (main.py
line 193) compares each big mover against `gainers[0]` — the FIRST record
with positive percentage delta — instead of against the biggest gainer.
Evaluating the engine on a snapshot pair where the biggest gainer ("B",
+25%, up 3 spots) is not the first positive-percentage record ("A", +5%)
produces both a biggest-gainer event and a rank-jump event naming "B". -/
theorem C1_duplicate_callout :
    get_notable_events (calculate_changes [⟨"A", 105⟩, ⟨"B", 50⟩]
        (some [("A", ⟨100, 1⟩), ("B", ⟨40, 5⟩)])) =
      [Event.gainer "B" 25 (RankNote.jumped 3), Event.jump "B" 3] := by
  with_unfolding_all decide

/-- C2 is refuted by the code: for the same reason as C1, a record with rank
delta 3 ("A", the first positive-percentage record) is wrongly skipped by
step 4 although the biggest-gainer event names "B", so no jump event for "A"
is emitted even though the output is far below the 4-event cap. -/
theorem C2_missing_jump :
    get_notable_events (calculate_changes [⟨"A", 105⟩, ⟨"B", 50⟩]
        (some [("A", ⟨100, 4⟩), ("B", ⟨40, 2⟩)])) =
      [Event.gainer "B" 25 RankNote.blank] := by
  with_unfolding_all decide

end BtcLayers
